import Mathlib

/-!
Shallow embedding of the SandWorm interpreter (`src/main.rs`) and proofs
about its single-step semantics.

Conventions of the embedding:
* Rust `u8` bytes are `Nat` values; wrapping arithmetic takes an explicit
  `% 256`.
* Rust `usize` coordinates are `Nat`; `usize::wrapping_sub(1)` and
  `usize::saturating_add(1)` are modelled explicitly against `U64 = 2 ^ 64`.
* `Vec<Vec<u8>>` (the grid) is `List (List Nat)`; indexing that would panic
  in Rust is total here via `getD` defaults, and `List.set` out of range is
  a no-op.  All theorems that depend on grid reads/writes carry in-bounds
  hypotheses (`cellInB`).
* `Vec::push` appends at the end of a `List`, `Vec::pop` removes the last
  element (`getLast?` / `dropLast`), `Vec::insert(0, x)` is `x :: ·`.
-/

namespace SandWorm

/-- Positions are `(col, row)` pairs, exactly as in the Rust source. -/
abbrev Pos := Nat × Nat

/-- The grid `program: Vec<Vec<u8>>`, a list of rows of byte values. -/
abbrev Grid := List (List Nat)

/-- The value `2 ^ 64`, the modulus of Rust `usize` arithmetic on this target. -/
def U64 : Nat := 2 ^ 64

/-- Rust `usize::wrapping_sub(1)`. -/
def wrapSub1 (x : Nat) : Nat := if x = 0 then U64 - 1 else x - 1

/-- Rust `usize::saturating_add(1)`. -/
def satAdd1 (x : Nat) : Nat := min (x + 1) (U64 - 1)

/-- Rust `enum Direction` with `Up, Down, Left, Right` (default `Right`). -/
inductive Direction where
  | Up | Down | Left | Right
  deriving DecidableEq

/-- Rust `enum State` with `Running, EndOfProgram` (default `Running`). -/
inductive State where
  | Running | EndOfProgram
  deriving DecidableEq

/-- The `struct SandWormInterpreter` from the source, field for field. -/
structure SandWormInterpreter where
  program : Grid
  width : Nat
  height : Nat
  /-- worm body locations, tail first, neck (nearest the head) last -/
  worm : List Pos
  worm_head : Pos
  /-- queue for outputting commands at the back of the worm (`worm_out`) -/
  worm_out : List Nat
  /-- stack of produced values awaiting installation (`worm_in`) -/
  worm_in : List Nat
  direction : Direction
  input : List Nat
  input_index : Nat
  output : List Nat
  state : State
  deriving DecidableEq

/-- Read `self.program[pos.1][pos.0]` (total, defaulting to 0 out of range). -/
def getCell (g : Grid) (p : Pos) : Nat := (g.getD p.2 []).getD p.1 0

/-- Write `self.program[pos.1][pos.0] = v`.  `List.set` out of range is a no-op,
matching the fact that every access in an actual run is in bounds. -/
def setCell (g : Grid) (p : Pos) (v : Nat) : Grid :=
  g.set p.2 ((g.getD p.2 []).set p.1 v)

/-- The position `p` indexes an actual cell of `g` (no Rust panic). -/
def cellInB (g : Grid) (p : Pos) : Prop :=
  p.2 < g.length ∧ p.1 < (g.getD p.2 []).length

instance (g : Grid) (p : Pos) : Decidable (cellInB g p) := by
  unfold cellInB; infer_instance

/-- Rust `fn get(&self, pos) -> u8`. -/
def get (s : SandWormInterpreter) (p : Pos) : Nat := getCell s.program p

/-- Rust `fn front(&self) -> (usize, usize)`: the cell one step ahead of the
head in the current direction, with `usize` wrapping/saturating. -/
def front (s : SandWormInterpreter) : Pos :=
  match s.direction with
  | .Up => (s.worm_head.1, wrapSub1 s.worm_head.2)
  | .Down => (s.worm_head.1, satAdd1 s.worm_head.2)
  | .Left => (wrapSub1 s.worm_head.1, s.worm_head.2)
  | .Right => (satAdd1 s.worm_head.1, s.worm_head.2)

/-- The in-place loop shared by `move_to` and `shrink`:

    let mut next = start;
    for body_segment in lst.iter_mut().rev() {
        self.program[next.1][next.0] = self.program[..segment..];
        (*body_segment, next) = (next, *body_segment);
    }

`l` is the body in reverse (iteration) order.  Returns the final grid, the
new segment list in iteration order, and the final value of `next` (the
vacated position the caller refills). -/
def shiftBody (g : Grid) (next : Pos) : List Pos → Grid × List Pos × Pos
  | [] => (g, [], next)
  | p :: ps =>
      let g1 := setCell g next (getCell g p)
      let res := shiftBody g1 p ps
      (res.1, next :: res.2.1, res.2.2)

/-- Rust `fn shrink(&mut self) -> u8`: pop the neck segment, return its value,
shift the remaining body toward the head, refill the vacated tail cell
from `worm_out` (or a space byte). -/
def shrink (s : SandWormInterpreter) : Nat × SandWormInterpreter :=
  match s.worm.getLast? with
  | none => (0, s)
  | some neck =>
      let rest := s.worm.dropLast
      let ret := get s neck
      let res := shiftBody s.program neck rest.reverse
      (ret,
        { s with
            program := setCell res.1 res.2.2 (s.worm_out.getLast?.getD 32)
            worm := res.2.1.reverse
            worm_out := s.worm_out.dropLast })

/-- Rust `fn move_to(&mut self, front)`: grow if `worm_in` is non-empty,
otherwise slide; then move the head to `front` and stamp `@` (64). -/
def move_to (s : SandWormInterpreter) (f : Pos) : SandWormInterpreter :=
  match s.worm_in.getLast? with
  | some inp =>
      let s1 :=
        { s with
            program := setCell s.program s.worm_head inp
            worm := s.worm ++ [s.worm_head]
            worm_in := s.worm_in.dropLast }
      { s1 with worm_head := f, program := setCell s1.program f 64 }
  | none =>
      let res := shiftBody s.program s.worm_head s.worm.reverse
      let s1 :=
        { s with
            program := setCell res.1 res.2.2 (s.worm_out.getLast?.getD 32)
            worm := res.2.1.reverse
            worm_out := s.worm_out.dropLast }
      { s1 with worm_head := f, program := setCell s1.program f 64 }

/-- Rust `u8::to_string(n).as_bytes()`: the decimal ASCII text of a byte. -/
def asciiDecimal (n : Nat) : List Nat := (Nat.repr n).toList.map Char.toNat

/-- Direction rotation performed by `\` on a non-zero operand. -/
def rotBack (d : Direction) : Direction :=
  match d with
  | .Up => .Left
  | .Down => .Right
  | .Left => .Up
  | .Right => .Down

/-- Direction rotation performed by `/` on a non-zero operand. -/
def rotFwd (d : Direction) : Direction :=
  match d with
  | .Up => .Right
  | .Down => .Left
  | .Left => .Down
  | .Right => .Up

/-- The body of the `match instruction` in `step_once`, branch for branch.
Returns the updated interpreter and the `dont_push_instruction` flag. -/
def dispatchCore (s : SandWormInterpreter) (instruction : Nat) :
    SandWormInterpreter × Bool :=
  if 48 ≤ instruction ∧ instruction ≤ 57 then
    ({ s with worm_in := s.worm_in ++ [instruction - 48] }, false)
  else if instruction = 43 then
    -- b'+'
    let r1 := shrink s
    let s2 := { r1.2 with worm_out := instruction :: r1.2.worm_out }
    let r2 := shrink s2
    ({ r2.2 with worm_in := r2.2.worm_in ++ [(r1.1 + r2.1) % 256] }, true)
  else if instruction = 45 then
    -- b'-' ; wrapping_sub modelled as addition of the complement mod 256
    let r1 := shrink s
    let s2 := { r1.2 with worm_out := instruction :: r1.2.worm_out }
    let r2 := shrink s2
    ({ r2.2 with worm_in := r2.2.worm_in ++ [(r1.1 + (256 - r2.1 % 256)) % 256] },
      true)
  else if instruction = 118 then ({ s with direction := .Down }, false)
  else if instruction = 94 then ({ s with direction := .Up }, false)
  else if instruction = 60 then ({ s with direction := .Left }, false)
  else if instruction = 62 then ({ s with direction := .Right }, false)
  else if instruction = 34 then
    -- b'"'
    let r := shrink s
    ({ r.2 with output := r.2.output ++ asciiDecimal r.1 }, false)
  else if instruction = 33 then
    -- b'!'
    let r := shrink s
    ({ r.2 with output := r.2.output ++ [r.1] }, false)
  else if instruction = 63 then
    -- b'?'
    ({ s with
        worm_in := s.worm_in ++ [s.input.getD s.input_index 0]
        input_index := s.input_index + 1 }, false)
  else if instruction = 61 then
    -- b'='
    ({ s with worm_in := s.worm_in ++ [(s.worm.getLast?.map (get s)).getD 0] },
      false)
  else if instruction = 92 then
    -- backslash
    let r := shrink s
    (if r.1 ≠ 0 then { r.2 with direction := rotBack r.2.direction } else r.2,
      false)
  else if instruction = 47 then
    -- b'/'
    let r := shrink s
    (if r.1 ≠ 0 then { r.2 with direction := rotFwd r.2.direction } else r.2,
      false)
  else if instruction = 32 ∨ instruction = 0 then (s, true)
  else if instruction = 95 then ({ s with worm_in := s.worm_in ++ [32] }, false)
  else ({ s with worm_in := s.worm_in ++ [instruction] }, false)

/-- Instruction dispatch followed by the conditional
`self.worm_out.insert(0, instruction)` guarded by `dont_push_instruction`. -/
def dispatch (s : SandWormInterpreter) (instruction : Nat) :
    SandWormInterpreter :=
  match dispatchCore s instruction with
  | (s1, true) => s1
  | (s1, false) => { s1 with worm_out := instruction :: s1.worm_out }

/-- Rust `fn step_once(&mut self)`. -/
def step_once (s : SandWormInterpreter) : SandWormInterpreter :=
  if s.state ≠ .Running then s
  else
    let f := front s
    if f.1 ≥ s.width ∨ f.2 ≥ s.height then { s with state := .EndOfProgram }
    else move_to (dispatch s (get s f)) f

/-- Rust `fn step(&mut self, n)`: repeat `step_once` up to `n` times, stopping
as soon as the state is no longer `Running`. -/
def step : SandWormInterpreter → Nat → SandWormInterpreter
  | s, 0 => s
  | s, n + 1 => if s.state ≠ .Running then s else step (step_once s) n

/-- Rust `fn parse(source) -> (Vec<Vec<u8>>, (usize, usize))`.  The caller
splits the source text into lines; rows are right-padded with null bytes
to the maximal line length, and the start position is the first `@` of
the last line containing one. -/
def parse (lines : List String) : Grid × Pos :=
  let rows := lines.map (fun l => l.toList.map Char.toNat)
  let width := rows.foldl (fun w r => max w r.length) 0
  let start := (rows.enum).foldl
    (fun acc rl =>
      match rl.2.findIdx? (fun b => b == 64) with
      | some col => (col, rl.1)
      | none => acc)
    (0, 0)
  (rows.map (fun r => r ++ List.replicate (width - r.length) 0), start)

/-- Rust `fn new(source, input) -> Self`. -/
def wormNew (lines : List String) (input : List Nat) : SandWormInterpreter :=
  let pr := parse lines
  { width := (pr.1.getD 0 []).length
    height := pr.1.length
    program := pr.1
    worm := []
    worm_head := pr.2
    worm_in := []
    worm_out := []
    input := input
    output := []
    state := .Running
    direction := .Right
    input_index := 0 }

/-! ## Queue instrumentation

`worm_out` is only ever modified by `insert(0, byte)` (enqueue at the
front) and `pop()` (dequeue from the back).  The following instrumented
variants return, alongside the same state transition, the list of bytes
actually dequeued (and, per step, enqueued), in operation order.  They are
used to state the FIFO property of the queue. -/

/-- Instrumented `shrink` together with its dequeue log: `worm_out.pop()` succeeds
exactly when the body is non-empty and the queue is non-empty. -/
def shrinkT (s : SandWormInterpreter) :
    Nat × SandWormInterpreter × List Nat :=
  ((shrink s).1, (shrink s).2,
    match s.worm.getLast? with
    | none => []
    | some _ => s.worm_out.getLast?.toList)

/-- Instrumented `move_to` together with its dequeue log: the slide branch pops one
byte from `worm_out` when the queue is non-empty. -/
def move_toT (s : SandWormInterpreter) (f : Pos) :
    SandWormInterpreter × List Nat :=
  (move_to s f,
    match s.worm_in.getLast? with
    | some _ => []
    | none => s.worm_out.getLast?.toList)

/-- The enqueue and dequeue logs of one dispatch, branch for branch in
the order of `dispatchCore`: every instruction other than space/null
enqueues its own byte exactly once (`+`/`-` between their two shrinks),
and dequeues happen only inside `shrink` calls. -/
def dispatchLogs (s : SandWormInterpreter) (instruction : Nat) :
    List Nat × List Nat :=
  if 48 ≤ instruction ∧ instruction ≤ 57 then ([instruction], [])
  else if instruction = 43 then
    ([instruction], (shrinkT s).2.2 ++
      (shrinkT { (shrink s).2 with
        worm_out := instruction :: (shrink s).2.worm_out }).2.2)
  else if instruction = 45 then
    ([instruction], (shrinkT s).2.2 ++
      (shrinkT { (shrink s).2 with
        worm_out := instruction :: (shrink s).2.worm_out }).2.2)
  else if instruction = 118 then ([instruction], [])
  else if instruction = 94 then ([instruction], [])
  else if instruction = 60 then ([instruction], [])
  else if instruction = 62 then ([instruction], [])
  else if instruction = 34 then ([instruction], (shrinkT s).2.2)
  else if instruction = 33 then ([instruction], (shrinkT s).2.2)
  else if instruction = 63 then ([instruction], [])
  else if instruction = 61 then ([instruction], [])
  else if instruction = 92 then ([instruction], (shrinkT s).2.2)
  else if instruction = 47 then ([instruction], (shrinkT s).2.2)
  else if instruction = 32 ∨ instruction = 0 then ([], [])
  else if instruction = 95 then ([instruction], [])
  else ([instruction], [])

/-- One step together with its enqueue and dequeue logs. -/
def step_onceT (s : SandWormInterpreter) :
    SandWormInterpreter × List Nat × List Nat :=
  if s.state ≠ .Running then (s, [], [])
  else
    let f := front s
    if f.1 ≥ s.width ∨ f.2 ≥ s.height then
      ({ s with state := .EndOfProgram }, [], [])
    else
      let i := get s f
      let lg := dispatchLogs s i
      (move_to (dispatch s i) f, lg.1, lg.2 ++ (move_toT (dispatch s i) f).2)

/-- A bounded run together with the cumulative enqueue and dequeue logs
(mirrors `step`). -/
def runT : SandWormInterpreter → Nat → SandWormInterpreter × List Nat × List Nat
  | s, 0 => (s, [], [])
  | s, n + 1 =>
      if s.state ≠ .Running then (s, [], [])
      else
        let r := step_onceT s
        let r2 := runT r.1 n
        (r2.1, r.2.1 ++ r2.2.1, r.2.2 ++ r2.2.2)

/-! ## Grid read/write lemmas -/

theorem getCell_setCell_same {g : Grid} {p : Pos} (h : cellInB g p) (v : Nat) :
    getCell (setCell g p v) p = v := by
  obtain ⟨h2, h1⟩ := h
  simp only [getCell, setCell, List.getD_eq_getElem?_getD] at *
  rw [List.getElem?_eq_getElem h2] at h1
  simp only [Option.getD_some] at h1
  simp [List.getElem?_set, h2, h1]

theorem getCell_setCell_ne {g : Grid} {p q : Pos} (h : q ≠ p) (v : Nat) :
    getCell (setCell g p v) q = getCell g q := by
  obtain ⟨pc, pr⟩ := p
  obtain ⟨qc, qr⟩ := q
  simp only [getCell, setCell, List.getD_eq_getElem?_getD]
  rcases eq_or_ne qr pr with h2 | h2
  · subst h2
    have h1 : pc ≠ qc := by
      intro h1; exact h (by simp [h1])
    by_cases hlt : qr < g.length
    · simp [List.getElem?_set, hlt, h1]
    · have hg : g[qr]? = none := List.getElem?_eq_none (by omega)
      simp [List.getElem?_set, hlt, hg]
  · simp [List.getElem?_set, h2.symm]

theorem length_row_setCell (g : Grid) (p : Pos) (v : Nat) (r : Nat) :
    (((setCell g p v).getD r []) : List Nat).length = ((g.getD r []) : List Nat).length := by
  simp only [setCell, List.getD_eq_getElem?_getD]
  rcases eq_or_ne p.2 r with h2 | h2
  · subst h2
    by_cases hlt : p.2 < g.length
    · simp [List.getElem?_set, hlt]
    · have hg : g[p.2]? = none := List.getElem?_eq_none (by omega)
      simp [List.getElem?_set, hlt, hg]
  · simp [List.getElem?_set, h2]

theorem cellInB_setCell {g : Grid} (p : Pos) (v : Nat) (q : Pos) :
    cellInB (setCell g p v) q ↔ cellInB g q := by
  unfold cellInB
  rw [length_row_setCell]
  simp [setCell]

/-! ## shiftBody lemmas

`shiftBody g next l` performs the writes
`g[next] := g[l₀]; g[l₀] := g[l₁]; …` in order, collects the new segment
list `next :: l.dropLast` and returns the final vacated position
(`l.getLast?.getD next`). -/

theorem shiftBody_segments (g : Grid) (next : Pos) (l : List Pos) :
    (shiftBody g next l).2.1 = (next :: l).dropLast := by
  induction l generalizing g next with
  | nil => rfl
  | cons p ps ih => simp [shiftBody, ih]

theorem shiftBody_last (g : Grid) (next : Pos) (l : List Pos) :
    (shiftBody g next l).2.2 = l.getLast?.getD next := by
  induction l generalizing g next with
  | nil => rfl
  | cons p ps ih =>
      simp only [shiftBody, ih]
      cases ps with
      | nil => rfl
      | cons q qs =>
          obtain ⟨y, hy⟩ := Option.isSome_iff_exists.mp
            (List.getLast?_isSome.mpr (List.cons_ne_nil q qs))
          simp [List.getLast?_cons_cons, hy]

theorem shiftBody_frame (g : Grid) (next : Pos) (l : List Pos) (q : Pos)
    (h1 : q ≠ next) (h2 : q ∉ l) :
    getCell (shiftBody g next l).1 q = getCell g q := by
  induction l generalizing g next with
  | nil => rfl
  | cons p ps ih =>
      simp only [shiftBody]
      rw [ih _ _ (fun hq => h2 (by simp [hq])) (fun hq => h2 (by simp [hq]))]
      exact getCell_setCell_ne h1 _

theorem cellInB_shiftBody (g : Grid) (next : Pos) (l : List Pos) (q : Pos) :
    cellInB (shiftBody g next l).1 q ↔ cellInB g q := by
  induction l generalizing g next with
  | nil => exact Iff.rfl
  | cons p ps ih =>
      simp only [shiftBody]
      rw [ih]
      exact cellInB_setCell _ _ _

/-- The first write: the cell at `next` receives the old value of the
first listed segment (and is never touched again if `next` occurs
nowhere else). -/
theorem shiftBody_get_first (g : Grid) (next p : Pos) (ps : List Pos)
    (hin : cellInB g next) (hn : next ∉ p :: ps) :
    getCell (shiftBody g next (p :: ps)).1 next = getCell g p := by
  simp only [shiftBody]
  rw [shiftBody_frame _ _ _ _ (fun h => hn (by simp [h]))
    (fun h => hn (by simp [h]))]
  exact getCell_setCell_same hin _

/-- The general shift: along the chain `next :: l`, the position at index
`i` receives the previous value of the position at index `i + 1`,
provided the positions are pairwise distinct and in bounds. -/
theorem shiftBody_get_pair (g : Grid) (next : Pos) (l : List Pos)
    (hnd : (next :: l).Nodup) (hin : ∀ q ∈ next :: l, cellInB g q)
    (i : Nat) (a b : Pos) (ha : (next :: l)[i]? = some a)
    (hb : (next :: l)[i + 1]? = some b) :
    getCell (shiftBody g next l).1 a = getCell g b := by
  induction l generalizing g next i with
  | nil => cases i <;> simp at hb
  | cons p ps ih =>
      cases i with
      | zero =>
          rw [List.getElem?_cons_zero] at ha
          rw [List.getElem?_cons_succ, List.getElem?_cons_zero] at hb
          have ha2 := Option.some.inj ha
          have hb2 := Option.some.inj hb
          subst ha2
          subst hb2
          exact shiftBody_get_first g next p ps (hin next (by simp))
            (List.nodup_cons.mp hnd).1
      | succ j =>
          rw [List.getElem?_cons_succ] at ha hb
          have hnd' : (p :: ps).Nodup := (List.nodup_cons.mp hnd).2
          have hnmem : next ∉ p :: ps := (List.nodup_cons.mp hnd).1
          have hin' : ∀ q ∈ p :: ps,
              cellInB (setCell g next (getCell g p)) q :=
            fun q hq => (cellInB_setCell _ _ _).mpr (hin q (by simp [hq]))
          have hx := ih (setCell g next (getCell g p)) p hnd' hin' j ha hb
          simp only [shiftBody]
          rw [hx]
          apply getCell_setCell_ne
          intro he
          apply hnmem
          obtain ⟨hlt, rfl⟩ := List.getElem?_eq_some_iff.mp hb
          exact he ▸ List.getElem_mem hlt

/-! ## List helpers -/

theorem memOf_getLast?_eq {α : Type _} {l : List α} {a : α}
    (h : l.getLast? = some a) : a ∈ l := by
  induction l with
  | nil => simp at h
  | cons b bs ih =>
      cases bs with
      | nil => simp_all
      | cons c cs =>
          rw [List.getLast?_cons_cons] at h
          exact List.mem_cons_of_mem _ (ih h)

theorem getLastD_mem_cons {α : Type _} (l : List α) (a : α) :
    l.getLast?.getD a ∈ a :: l := by
  cases h : l.getLast? with
  | none => simp
  | some y => simpa using Or.inr (memOf_getLast?_eq h)

/-! ## shrink projection lemmas -/

theorem shrink_nil (s : SandWormInterpreter) (h : s.worm = []) :
    shrink s = (0, s) := by
  unfold shrink
  rw [h]
  rfl

theorem shrink_worm_head (s : SandWormInterpreter) :
    (shrink s).2.worm_head = s.worm_head := by
  unfold shrink; cases s.worm.getLast? <;> rfl

theorem shrink_worm_in (s : SandWormInterpreter) :
    (shrink s).2.worm_in = s.worm_in := by
  unfold shrink; cases s.worm.getLast? <;> rfl

theorem shrink_state (s : SandWormInterpreter) :
    (shrink s).2.state = s.state := by
  unfold shrink; cases s.worm.getLast? <;> rfl

theorem shrink_direction (s : SandWormInterpreter) :
    (shrink s).2.direction = s.direction := by
  unfold shrink; cases s.worm.getLast? <;> rfl

theorem shrink_input (s : SandWormInterpreter) :
    (shrink s).2.input = s.input := by
  unfold shrink; cases s.worm.getLast? <;> rfl

theorem shrink_input_index (s : SandWormInterpreter) :
    (shrink s).2.input_index = s.input_index := by
  unfold shrink; cases s.worm.getLast? <;> rfl

theorem shrink_output (s : SandWormInterpreter) :
    (shrink s).2.output = s.output := by
  unfold shrink; cases s.worm.getLast? <;> rfl

theorem shrink_width (s : SandWormInterpreter) :
    (shrink s).2.width = s.width := by
  unfold shrink; cases s.worm.getLast? <;> rfl

theorem shrink_height (s : SandWormInterpreter) :
    (shrink s).2.height = s.height := by
  unfold shrink; cases s.worm.getLast? <;> rfl

theorem shrink_worm_out (s : SandWormInterpreter) (h : s.worm ≠ []) :
    (shrink s).2.worm_out = s.worm_out.dropLast := by
  unfold shrink
  cases h2 : s.worm.getLast? with
  | none => exact absurd (List.getLast?_eq_none_iff.mp h2) h
  | some neck => rfl

theorem shrink_ret (s : SandWormInterpreter) (rest : List Pos) (neck : Pos)
    (h : s.worm = rest ++ [neck]) : (shrink s).1 = get s neck := by
  unfold shrink
  rw [h, List.getLast?_concat]

theorem shrink_worm (s : SandWormInterpreter) (rest : List Pos) (neck : Pos)
    (hne : rest ≠ []) (h : s.worm = rest ++ [neck]) :
    (shrink s).2.worm = rest.drop 1 ++ [neck] := by
  obtain ⟨r, rs, rfl⟩ := List.exists_cons_of_ne_nil hne
  unfold shrink
  rw [h, List.getLast?_concat]
  simp [shiftBody_segments, List.dropLast_concat]
  rw [show (r :: (rs ++ [neck])).dropLast = r :: rs from by
    rw [← List.cons_append, List.dropLast_concat]]
  rw [List.reverse_cons, ← List.cons_append, List.dropLast_concat]

theorem shrink_mem_worm (s : SandWormInterpreter) (q : Pos)
    (h : q ∈ (shrink s).2.worm) : q ∈ s.worm := by
  revert h
  unfold shrink
  cases h2 : s.worm.getLast? with
  | none => exact fun h => h
  | some neck =>
      intro h
      simp only [shiftBody_segments, List.mem_reverse] at h
      have hsub : q ∈ neck :: s.worm.dropLast.reverse :=
        List.dropLast_subset _ h
      rcases List.mem_cons.mp hsub with h3 | h3
      · exact h3 ▸ memOf_getLast?_eq h2
      · exact List.dropLast_subset _ (List.mem_reverse.mp h3)

theorem getLastD_mem {α : Type _} (l : List α) (a : α) (h : l ≠ []) :
    l.getLast?.getD a ∈ l := by
  cases h2 : l.getLast? with
  | none => exact absurd (List.getLast?_eq_none_iff.mp h2) h
  | some y => simpa using memOf_getLast?_eq h2

theorem shrink_frame (s : SandWormInterpreter) (q : Pos) (hq : q ∉ s.worm) :
    getCell (shrink s).2.program q = getCell s.program q := by
  unfold shrink
  cases h2 : s.worm.getLast? with
  | none => rfl
  | some neck =>
      have hneck : neck ∈ s.worm := memOf_getLast?_eq h2
      have hql : q ≠ (shiftBody s.program neck s.worm.dropLast.reverse).2.2 := by
        rw [shiftBody_last]
        intro he
        have hm := getLastD_mem_cons s.worm.dropLast.reverse neck
        rw [← he] at hm
        rcases List.mem_cons.mp hm with h3 | h3
        · exact hq (h3 ▸ hneck)
        · exact hq (List.dropLast_subset _ (List.mem_reverse.mp h3))
      simp only
      rw [getCell_setCell_ne hql _]
      exact shiftBody_frame _ _ _ _ (fun he => hq (he ▸ hneck))
        (fun he => hq (List.dropLast_subset _ (List.mem_reverse.mp he)))

theorem shrink_cellInB (s : SandWormInterpreter) (q : Pos) :
    cellInB (shrink s).2.program q ↔ cellInB s.program q := by
  unfold shrink
  cases h2 : s.worm.getLast? with
  | none => exact Iff.rfl
  | some neck =>
      simp only
      rw [cellInB_setCell, cellInB_shiftBody]

/-- After one `shrink`, the cell at the (old and new) neck position holds
the value previously carried by the second segment from the head. -/
theorem shrink_get_neck (s : SandWormInterpreter) (l2 : List Pos)
    (p2 p1 : Pos) (h : s.worm = l2 ++ [p2, p1]) (hnd : s.worm.Nodup)
    (hb : cellInB s.program p1) :
    getCell (shrink s).2.program p1 = getCell s.program p2 := by
  have hsplit : s.worm = (l2 ++ [p2]) ++ [p1] := by simp [h]
  have hnd2 : ((l2 ++ [p2]) ++ [p1]).Nodup := hsplit ▸ hnd
  have hp1 : ¬(p1 = p2 ∨ p1 ∈ l2) := by
    rcases List.nodup_append.mp hnd2 with ⟨-, -, hdisj⟩
    intro hc
    apply hdisj _ (show p1 ∈ [p1] by simp)
    rcases hc with h1 | h1
    · simp [h1]
    · simp [h1]
  have hrev : (l2 ++ [p2]).reverse = p2 :: l2.reverse := by simp
  unfold shrink
  rw [hsplit, List.getLast?_concat]
  simp only [List.dropLast_concat, hrev]
  have hne : p1 ≠ (shiftBody s.program p1 (p2 :: l2.reverse)).2.2 := by
    rw [shiftBody_last]
    intro he
    have hm : (p2 :: l2.reverse).getLast?.getD p1 ∈ p2 :: l2.reverse :=
      getLastD_mem _ _ (List.cons_ne_nil _ _)
    rw [← he] at hm
    exact hp1 (by simpa using hm)
  rw [getCell_setCell_ne hne _]
  exact shiftBody_get_first _ _ _ _ hb (fun hmem => hp1 (by simpa using hmem))

theorem exists_concat_of_getLast? {α : Type _} {l : List α} {a : α}
    (h : l.getLast? = some a) : ∃ rest, l = rest ++ [a] := by
  induction l with
  | nil => simp at h
  | cons b bs ih =>
      cases bs with
      | nil =>
          simp only [List.getLast?_singleton, Option.some.injEq] at h
          exact ⟨[], by simp [h]⟩
      | cons c cs =>
          rw [List.getLast?_cons_cons] at h
          obtain ⟨rest, hr⟩ := ih h
          exact ⟨b :: rest, by simp [hr]⟩

/-! ## move_to projection lemmas -/

theorem move_to_worm_head (s : SandWormInterpreter) (f : Pos) :
    (move_to s f).worm_head = f := by
  unfold move_to; cases s.worm_in.getLast? <;> rfl

theorem move_to_state (s : SandWormInterpreter) (f : Pos) :
    (move_to s f).state = s.state := by
  unfold move_to; cases s.worm_in.getLast? <;> rfl

theorem move_to_direction (s : SandWormInterpreter) (f : Pos) :
    (move_to s f).direction = s.direction := by
  unfold move_to; cases s.worm_in.getLast? <;> rfl

theorem move_to_input (s : SandWormInterpreter) (f : Pos) :
    (move_to s f).input = s.input := by
  unfold move_to; cases s.worm_in.getLast? <;> rfl

theorem move_to_input_index (s : SandWormInterpreter) (f : Pos) :
    (move_to s f).input_index = s.input_index := by
  unfold move_to; cases s.worm_in.getLast? <;> rfl

theorem move_to_output (s : SandWormInterpreter) (f : Pos) :
    (move_to s f).output = s.output := by
  unfold move_to; cases s.worm_in.getLast? <;> rfl

theorem move_to_width (s : SandWormInterpreter) (f : Pos) :
    (move_to s f).width = s.width := by
  unfold move_to; cases s.worm_in.getLast? <;> rfl

theorem move_to_height (s : SandWormInterpreter) (f : Pos) :
    (move_to s f).height = s.height := by
  unfold move_to; cases s.worm_in.getLast? <;> rfl

theorem move_to_worm_in (s : SandWormInterpreter) (f : Pos) :
    (move_to s f).worm_in = s.worm_in.dropLast := by
  unfold move_to
  cases h : s.worm_in.getLast? with
  | none => rw [List.getLast?_eq_none_iff.mp h]; rfl
  | some v => rfl

theorem move_to_worm_out_grow (s : SandWormInterpreter) (f : Pos)
    (h : s.worm_in ≠ []) : (move_to s f).worm_out = s.worm_out := by
  unfold move_to
  cases h2 : s.worm_in.getLast? with
  | none => exact absurd (List.getLast?_eq_none_iff.mp h2) h
  | some v => rfl

theorem move_to_worm_out_slide (s : SandWormInterpreter) (f : Pos)
    (h : s.worm_in = []) : (move_to s f).worm_out = s.worm_out.dropLast := by
  unfold move_to
  rw [h]
  rfl

theorem move_to_worm_grow (s : SandWormInterpreter) (f : Pos)
    (h : s.worm_in ≠ []) : (move_to s f).worm = s.worm ++ [s.worm_head] := by
  unfold move_to
  cases h2 : s.worm_in.getLast? with
  | none => exact absurd (List.getLast?_eq_none_iff.mp h2) h
  | some v => rfl

theorem move_to_worm_slide_nil (s : SandWormInterpreter) (f : Pos)
    (hin : s.worm_in = []) (hw : s.worm = []) : (move_to s f).worm = [] := by
  unfold move_to
  rw [hin, hw]
  rfl

theorem move_to_worm_slide_cons (s : SandWormInterpreter) (f : Pos)
    (t : Pos) (rest : List Pos) (hin : s.worm_in = [])
    (hw : s.worm = t :: rest) :
    (move_to s f).worm = rest ++ [s.worm_head] := by
  unfold move_to
  rw [hin, hw]
  simp only [List.getLast?_nil, shiftBody_segments]
  rw [List.reverse_cons, ← List.cons_append, List.dropLast_concat]
  simp

theorem move_to_mem_worm (s : SandWormInterpreter) (f : Pos) (q : Pos)
    (h : q ∈ (move_to s f).worm) : q ∈ s.worm ∨ q = s.worm_head := by
  revert h
  unfold move_to
  cases h2 : s.worm_in.getLast? with
  | some v =>
      intro h
      simp only at h
      rcases List.mem_append.mp h with h3 | h3
      · exact Or.inl h3
      · exact Or.inr (by simpa using h3)
  | none =>
      intro h
      simp only [shiftBody_segments, List.mem_reverse] at h
      have h4 := List.dropLast_subset _ h
      rcases List.mem_cons.mp h4 with h3 | h3
      · exact Or.inr h3
      · exact Or.inl (List.mem_reverse.mp h3)

theorem move_to_cellInB (s : SandWormInterpreter) (f : Pos) (q : Pos) :
    cellInB (move_to s f).program q ↔ cellInB s.program q := by
  unfold move_to
  cases s.worm_in.getLast? with
  | some v =>
      simp only
      rw [cellInB_setCell, cellInB_setCell]
  | none =>
      simp only
      rw [cellInB_setCell, cellInB_setCell, cellInB_shiftBody]

theorem move_to_get_front (s : SandWormInterpreter) (f : Pos)
    (hb : cellInB s.program f) : getCell (move_to s f).program f = 64 := by
  unfold move_to
  cases s.worm_in.getLast? with
  | some v =>
      simp only
      exact getCell_setCell_same ((cellInB_setCell _ _ _).mpr hb) _
  | none =>
      simp only
      exact getCell_setCell_same
        ((cellInB_setCell _ _ _).mpr ((cellInB_shiftBody _ _ _ _).mpr hb)) _

theorem move_to_grow_get_head (s : SandWormInterpreter) (f : Pos)
    (vs : List Nat) (v : Nat) (h : s.worm_in = vs ++ [v])
    (hf : f ≠ s.worm_head) (hb : cellInB s.program s.worm_head) :
    getCell (move_to s f).program s.worm_head = v := by
  unfold move_to
  rw [h, List.getLast?_concat]
  simp only
  rw [getCell_setCell_ne (Ne.symm hf)]
  exact getCell_setCell_same hb v

theorem move_to_grow_frame (s : SandWormInterpreter) (f : Pos)
    (h : s.worm_in ≠ []) (q : Pos) (h1 : q ≠ s.worm_head) (h2 : q ≠ f) :
    getCell (move_to s f).program q = getCell s.program q := by
  unfold move_to
  cases h3 : s.worm_in.getLast? with
  | none => exact absurd (List.getLast?_eq_none_iff.mp h3) h
  | some v =>
      simp only
      rw [getCell_setCell_ne h2, getCell_setCell_ne h1]

theorem move_to_slide_frame (s : SandWormInterpreter) (f : Pos)
    (hin : s.worm_in = []) (q : Pos) (hq : q ∉ s.worm)
    (h1 : q ≠ s.worm_head) (h2 : q ≠ f) :
    getCell (move_to s f).program q = getCell s.program q := by
  unfold move_to
  rw [hin]
  simp only [List.getLast?_nil]
  have hlast : q ≠ (shiftBody s.program s.worm_head s.worm.reverse).2.2 := by
    rw [shiftBody_last]
    intro he
    have hm := getLastD_mem_cons s.worm.reverse s.worm_head
    rw [← he] at hm
    rcases List.mem_cons.mp hm with h3 | h3
    · exact h1 h3
    · exact hq (List.mem_reverse.mp h3)
  rw [getCell_setCell_ne h2, getCell_setCell_ne hlast]
  exact shiftBody_frame _ _ _ _ h1 (fun hm => hq (List.mem_reverse.mp hm))

theorem move_to_slide_get_head (s : SandWormInterpreter) (f : Pos)
    (neck : Pos) (hin : s.worm_in = []) (hneck : s.worm.getLast? = some neck)
    (hh : s.worm_head ∉ s.worm) (hf : f ≠ s.worm_head)
    (hb : cellInB s.program s.worm_head) :
    getCell (move_to s f).program s.worm_head = getCell s.program neck := by
  obtain ⟨rest, hw⟩ := exists_concat_of_getLast? hneck
  unfold move_to
  rw [hin, hw]
  simp only [List.getLast?_nil, List.reverse_append, List.reverse_singleton,
    List.singleton_append]
  have hmem : s.worm_head ∉ neck :: rest.reverse := by
    intro hm
    rcases List.mem_cons.mp hm with h3 | h3
    · exact hh (by simp [hw, h3])
    · exact hh (by simp [hw, List.mem_reverse.mp h3])
  have hlast : s.worm_head ≠
      (shiftBody s.program s.worm_head (neck :: rest.reverse)).2.2 := by
    rw [shiftBody_last]
    intro he
    have hm : (neck :: rest.reverse).getLast?.getD s.worm_head ∈
        neck :: rest.reverse := getLastD_mem _ _ (List.cons_ne_nil _ _)
    rw [← he] at hm
    exact hmem hm
  rw [getCell_setCell_ne (Ne.symm hf), getCell_setCell_ne hlast]
  exact shiftBody_get_first _ _ _ _ hb hmem

theorem move_to_slide_empty_head (s : SandWormInterpreter) (f : Pos)
    (hin : s.worm_in = []) (hw : s.worm = []) (hf : f ≠ s.worm_head)
    (hb : cellInB s.program s.worm_head) :
    getCell (move_to s f).program s.worm_head =
      s.worm_out.getLast?.getD 32 := by
  unfold move_to
  rw [hin, hw]
  simp only [List.getLast?_nil, List.reverse_nil, shiftBody]
  rw [getCell_setCell_ne (Ne.symm hf)]
  exact getCell_setCell_same hb _

theorem move_to_slide_get_tail (s : SandWormInterpreter) (f : Pos)
    (t : Pos) (rest : List Pos) (hin : s.worm_in = [])
    (hw : s.worm = t :: rest) (hft : f ≠ t) (hbt : cellInB s.program t) :
    getCell (move_to s f).program t = s.worm_out.getLast?.getD 32 := by
  unfold move_to
  rw [hin, hw]
  simp only [List.getLast?_nil]
  have hlast : (shiftBody s.program s.worm_head (t :: rest).reverse).2.2 = t := by
    rw [shiftBody_last, List.getLast?_reverse]
    rfl
  rw [hlast, getCell_setCell_ne (Ne.symm hft)]
  exact getCell_setCell_same ((cellInB_shiftBody _ _ _ _).mpr hbt) _

theorem move_to_slide_shift (s : SandWormInterpreter) (f : Pos)
    (hin : s.worm_in = []) (hnd : s.worm.Nodup) (hh : s.worm_head ∉ s.worm)
    (hf : f ∉ s.worm) (hbs : ∀ q ∈ s.worm_head :: s.worm, cellInB s.program q)
    (i : Nat) (p q : Pos) (hp : s.worm[i]? = some p)
    (hq : s.worm[i + 1]? = some q) :
    getCell (move_to s f).program q = getCell s.program p := by
  have hlen : i + 1 < s.worm.length := (List.getElem?_eq_some_iff.mp hq).1
  have e1 : (s.worm_head :: s.worm.reverse)[s.worm.length - 1 - i]? = some q := by
    rw [show s.worm.length - 1 - i = (s.worm.length - 2 - i) + 1 from by omega,
      List.getElem?_cons_succ, List.getElem?_reverse (by omega),
      show s.worm.length - 1 - (s.worm.length - 2 - i) = i + 1 from by omega]
    exact hq
  have e2 : (s.worm_head :: s.worm.reverse)[s.worm.length - 1 - i + 1]? =
      some p := by
    rw [List.getElem?_cons_succ, List.getElem?_reverse (by omega),
      show s.worm.length - 1 - (s.worm.length - 1 - i) = i from by omega]
    exact hp
  have hnd2 : (s.worm_head :: s.worm.reverse).Nodup :=
    List.nodup_cons.mpr
      ⟨fun hm => hh (List.mem_reverse.mp hm), List.nodup_reverse.mpr hnd⟩
  have hbs2 : ∀ r ∈ s.worm_head :: s.worm.reverse, cellInB s.program r := by
    intro r hr
    rcases List.mem_cons.mp hr with h3 | h3
    · exact hbs r (by simp [h3])
    · exact hbs r (by simp [List.mem_reverse.mp h3])
  have hmain := shiftBody_get_pair s.program s.worm_head s.worm.reverse hnd2
    hbs2 (s.worm.length - 1 - i) q p e1 e2
  obtain ⟨t, rest, hw⟩ : ∃ t rest, s.worm = t :: rest := by
    cases hwc : s.worm with
    | nil => rw [hwc] at hlen; simp at hlen
    | cons a as => exact ⟨a, as, rfl⟩
  have hqrest : q ∈ rest := by
    rw [hw, List.getElem?_cons_succ] at hq
    obtain ⟨hlt2, rfl⟩ := List.getElem?_eq_some_iff.mp hq
    exact List.getElem_mem hlt2
  have hqt : q ≠ t := by
    intro he
    have := (List.nodup_cons.mp (hw ▸ hnd)).1
    exact this (he ▸ hqrest)
  have hqmem : q ∈ s.worm := by
    rw [hw]
    exact List.mem_cons_of_mem _ hqrest
  unfold move_to
  rw [hin]
  simp only [List.getLast?_nil]
  have hlast : (shiftBody s.program s.worm_head s.worm.reverse).2.2 = t := by
    rw [shiftBody_last, hw, List.getLast?_reverse]
    rfl
  rw [getCell_setCell_ne (fun he => hf (by rw [← he]; exact hqmem)), hlast,
    getCell_setCell_ne hqt]
  exact hmain

/-! ## Easy per-claim results: the no-op step, empty shrink, the worked
example, and out-of-bounds termination -/

/-- Claim C7: once the execution state is `EndOfProgram`, `step_once` is a
pure no-op: the whole interpreter state (grid, worm, queues, buffers,
direction, state) is returned unchanged. -/
theorem c7_step_after_end_noop (s : SandWormInterpreter)
    (h : s.state = .EndOfProgram) : step_once s = s := by
  unfold step_once
  rw [h]
  simp

/-- Witness for C7 at a concrete interpreter state. -/
theorem c7_witness :
    step_once { wormNew ["@"] [] with state := .EndOfProgram } =
      { wormNew ["@"] [] with state := .EndOfProgram } :=
  c7_step_after_end_noop _ rfl

/-- Claim C8: with an empty body, `shrink` returns the zero byte and
changes nothing (it never fails). -/
theorem c8_shrink_empty (s : SandWormInterpreter) (h : s.worm = []) :
    shrink s = (0, s) := by
  unfold shrink
  rw [h]
  rfl

/-- Witness for C8 at a concrete interpreter state. -/
theorem c8_witness : shrink (wormNew ["@"] []) = (0, wormNew ["@"] []) :=
  c8_shrink_empty _ rfl

/-- Claim C9: the single-row program `05"` with the head defaulting to
column 0 facing `Right` and empty input produces output `"5"` (byte 53)
after three steps, and a four-step run ends in `EndOfProgram`. -/
theorem c9_example_program :
    (step (wormNew ["05\""] []) 3).output = [53] ∧
    (step (wormNew ["05\""] []) 4).state = .EndOfProgram := by
  constructor <;> rfl

/-- Counterexample for C1 as stated: on the program `@0" `, the second
step (instruction `"`) leaves the state `Running` but the body length
drops from 1 to 0 — a difference of −1, neither 0 nor +1. -/
theorem c1_counterexample :
    (step_once (wormNew ["@0\" "] [])).state = .Running ∧
    (step_once (step_once (wormNew ["@0\" "] []))).state = .Running ∧
    (step_once (wormNew ["@0\" "] [])).worm.length = 1 ∧
    ¬ ((step_once (step_once (wormNew ["@0\" "] []))).worm.length =
          (step_once (wormNew ["@0\" "] [])).worm.length ∨
        (step_once (step_once (wormNew ["@0\" "] []))).worm.length =
          (step_once (wormNew ["@0\" "] [])).worm.length + 1) := by
  refine ⟨rfl, rfl, rfl, ?_⟩
  decide

/-- Counterexample for C2 as stated: on the two-row program
`@123v` / `   ^<` the worm grows to length 3, turns down, left and up,
and on the seventh step moves onto its own body: the head is then a
member of `worm`, while the state is still `Running`. -/
theorem c2_counterexample :
    (step (wormNew ["@123v", "   ^<"] []) 7).state = .Running ∧
    (step (wormNew ["@123v", "   ^<"] []) 7).worm_head ∈
      (step (wormNew ["@123v", "   ^<"] []) 7).worm := by
  decide

/-- Claim C4: if the forward cell computed from the head and direction is
outside `[0,width) × [0,height)`, a step only sets the state to
`EndOfProgram` and mutates nothing else (the record-update equality says
every other field is unchanged).  The remaining conjuncts show that
decrementing a zero coordinate (`Up`/`Left`, via `wrapping_sub`) and
incrementing a maximal representable coordinate (`Down`/`Right`, via
`saturating_add`) both land outside the grid, given that the grid
dimensions fit in a `usize`. -/
theorem c4_out_of_bounds (s : SandWormInterpreter) (hr : s.state = .Running) :
    ((front s).1 ≥ s.width ∨ (front s).2 ≥ s.height →
      step_once s = { s with state := .EndOfProgram }) ∧
    (s.direction = .Up → s.worm_head.2 = 0 → s.height < U64 →
      (front s).2 ≥ s.height) ∧
    (s.direction = .Left → s.worm_head.1 = 0 → s.width < U64 →
      (front s).1 ≥ s.width) ∧
    (s.direction = .Down → s.worm_head.2 = U64 - 1 → s.height < U64 →
      (front s).2 ≥ s.height) ∧
    (s.direction = .Right → s.worm_head.1 = U64 - 1 → s.width < U64 →
      (front s).1 ≥ s.width) := by
  refine ⟨?_, ?_, ?_, ?_, ?_⟩
  · intro h
    unfold step_once
    rw [hr]
    simp only [ne_eq, not_true_eq_false, if_false]
    rw [if_pos h]
  · intro hd h0 hh
    simp [front, hd, wrapSub1, h0]; omega
  · intro hd h0 hh
    simp [front, hd, wrapSub1, h0]; omega
  · intro hd h0 hh
    simp [front, hd, satAdd1, h0]; omega
  · intro hd h0 hh
    simp [front, hd, satAdd1, h0]; omega

/-- Witness for C4: the one-cell program `@` facing right steps out of the
grid immediately. -/
theorem c4_witness :
    (front (wormNew ["@"] [])).1 ≥ (wormNew ["@"] []).width ∧
    step_once (wormNew ["@"] []) =
      { wormNew ["@"] [] with state := .EndOfProgram } :=
  ⟨by decide, (c4_out_of_bounds _ rfl).1 (Or.inl (by decide))⟩

/-! ## Step-level helper lemmas -/

theorem front_ne_head (s : SandWormInterpreter)
    (hfb : (front s).1 < s.width ∧ (front s).2 < s.height)
    (hwd : s.width < U64) (hht : s.height < U64) :
    front s ≠ s.worm_head := by
  have hU : U64 = 18446744073709551616 := by norm_num [U64]
  intro he
  cases hd : s.direction
  case Up =>
      have hfr : front s = (s.worm_head.1, wrapSub1 s.worm_head.2) := by
        simp [front, hd]
      rw [hfr] at hfb he
      have h2 : wrapSub1 s.worm_head.2 = s.worm_head.2 :=
        congrArg Prod.snd he
      have h3 := hfb.2
      unfold wrapSub1 at h2 h3
      split_ifs at h2 h3 <;> omega
  case Down =>
      have hfr : front s = (s.worm_head.1, satAdd1 s.worm_head.2) := by
        simp [front, hd]
      rw [hfr] at hfb he
      have h2 : satAdd1 s.worm_head.2 = s.worm_head.2 :=
        congrArg Prod.snd he
      have h3 := hfb.2
      unfold satAdd1 at h2 h3
      omega
  case Left =>
      have hfr : front s = (wrapSub1 s.worm_head.1, s.worm_head.2) := by
        simp [front, hd]
      rw [hfr] at hfb he
      have h2 : wrapSub1 s.worm_head.1 = s.worm_head.1 :=
        congrArg Prod.fst he
      have h3 := hfb.1
      unfold wrapSub1 at h2 h3
      split_ifs at h2 h3 <;> omega
  case Right =>
      have hfr : front s = (satAdd1 s.worm_head.1, s.worm_head.2) := by
        simp [front, hd]
      rw [hfr] at hfb he
      have h2 : satAdd1 s.worm_head.1 = s.worm_head.1 :=
        congrArg Prod.fst he
      have h3 := hfb.1
      unfold satAdd1 at h2 h3
      omega

theorem step_once_running (s : SandWormInterpreter) (hr : s.state = .Running)
    (hfb : ¬((front s).1 ≥ s.width ∨ (front s).2 ≥ s.height)) :
    step_once s = move_to (dispatch s (get s (front s))) (front s) := by
  unfold step_once
  rw [hr]
  simp only [ne_eq, not_true_eq_false, if_false]
  rw [if_neg hfb]

theorem step_once_not_running (s : SandWormInterpreter)
    (h : s.state ≠ .Running) : step_once s = s := by
  unfold step_once
  rw [if_pos h]

theorem step_once_oob (s : SandWormInterpreter) (hr : s.state = .Running)
    (h : (front s).1 ≥ s.width ∨ (front s).2 ≥ s.height) :
    step_once s = { s with state := .EndOfProgram } := by
  unfold step_once
  rw [hr]
  simp only [ne_eq, not_true_eq_false, if_false]
  rw [if_pos h]

/-! ### Branch equations for `dispatchCore`, `dispatch` and `dispatchLogs`

One equation per arm of the Rust `match instruction`, so that later
proofs can do a 16-way case analysis on the instruction byte without ever
expanding the whole dispatch table at once. -/

theorem dispatchCore_digit (s : SandWormInterpreter) (i : Nat)
    (h : 48 ≤ i ∧ i ≤ 57) :
    dispatchCore s i = ({ s with worm_in := s.worm_in ++ [i - 48] }, false) := by
  unfold dispatchCore
  rw [if_pos h]

theorem dispatchCore_plus (s : SandWormInterpreter) :
    dispatchCore s 43 =
      ({ (shrink { (shrink s).2 with
            worm_out := 43 :: (shrink s).2.worm_out }).2 with
          worm_in := (shrink { (shrink s).2 with
            worm_out := 43 :: (shrink s).2.worm_out }).2.worm_in ++
            [((shrink s).1 + (shrink { (shrink s).2 with
              worm_out := 43 :: (shrink s).2.worm_out }).1) % 256] },
        true) := rfl

theorem dispatchCore_minus (s : SandWormInterpreter) :
    dispatchCore s 45 =
      ({ (shrink { (shrink s).2 with
            worm_out := 45 :: (shrink s).2.worm_out }).2 with
          worm_in := (shrink { (shrink s).2 with
            worm_out := 45 :: (shrink s).2.worm_out }).2.worm_in ++
            [((shrink s).1 + (256 - (shrink { (shrink s).2 with
              worm_out := 45 :: (shrink s).2.worm_out }).1 % 256)) % 256] },
        true) := rfl

theorem dispatchCore_down (s : SandWormInterpreter) :
    dispatchCore s 118 = ({ s with direction := .Down }, false) := rfl

theorem dispatchCore_up (s : SandWormInterpreter) :
    dispatchCore s 94 = ({ s with direction := .Up }, false) := rfl

theorem dispatchCore_left (s : SandWormInterpreter) :
    dispatchCore s 60 = ({ s with direction := .Left }, false) := rfl

theorem dispatchCore_right (s : SandWormInterpreter) :
    dispatchCore s 62 = ({ s with direction := .Right }, false) := rfl

theorem dispatchCore_write (s : SandWormInterpreter) :
    dispatchCore s 34 =
      ({ (shrink s).2 with
          output := (shrink s).2.output ++ asciiDecimal (shrink s).1 },
        false) := rfl

theorem dispatchCore_writeByte (s : SandWormInterpreter) :
    dispatchCore s 33 =
      ({ (shrink s).2 with
          output := (shrink s).2.output ++ [(shrink s).1] }, false) := rfl

theorem dispatchCore_read (s : SandWormInterpreter) :
    dispatchCore s 63 =
      ({ s with
          worm_in := s.worm_in ++ [s.input.getD s.input_index 0]
          input_index := s.input_index + 1 }, false) := rfl

theorem dispatchCore_dup (s : SandWormInterpreter) :
    dispatchCore s 61 =
      ({ s with
          worm_in := s.worm_in ++ [(s.worm.getLast?.map (get s)).getD 0] },
        false) := rfl

theorem dispatchCore_backslash (s : SandWormInterpreter) :
    dispatchCore s 92 =
      ((if (shrink s).1 ≠ 0 then
          { (shrink s).2 with direction := rotBack (shrink s).2.direction }
        else (shrink s).2), false) := rfl

theorem dispatchCore_slash (s : SandWormInterpreter) :
    dispatchCore s 47 =
      ((if (shrink s).1 ≠ 0 then
          { (shrink s).2 with direction := rotFwd (shrink s).2.direction }
        else (shrink s).2), false) := rfl

theorem dispatchCore_space (s : SandWormInterpreter) (i : Nat)
    (h : i = 32 ∨ i = 0) : dispatchCore s i = (s, true) := by
  rcases h with rfl | rfl <;> rfl

theorem dispatchCore_underscore (s : SandWormInterpreter) :
    dispatchCore s 95 = ({ s with worm_in := s.worm_in ++ [32] }, false) := rfl

theorem dispatchCore_other (s : SandWormInterpreter) (i : Nat)
    (h1 : ¬(48 ≤ i ∧ i ≤ 57)) (h2 : i ≠ 43) (h3 : i ≠ 45) (h4 : i ≠ 118)
    (h5 : i ≠ 94) (h6 : i ≠ 60) (h7 : i ≠ 62) (h8 : i ≠ 34) (h9 : i ≠ 33)
    (h10 : i ≠ 63) (h11 : i ≠ 61) (h12 : i ≠ 92) (h13 : i ≠ 47)
    (h14 : ¬(i = 32 ∨ i = 0)) (h15 : i ≠ 95) :
    dispatchCore s i = ({ s with worm_in := s.worm_in ++ [i] }, false) := by
  unfold dispatchCore
  rw [if_neg h1, if_neg h2, if_neg h3, if_neg h4, if_neg h5, if_neg h6,
    if_neg h7, if_neg h8, if_neg h9, if_neg h10, if_neg h11, if_neg h12,
    if_neg h13, if_neg h14, if_neg h15]

/-- Exhaustive classification of the instruction byte, mirroring the
arms of the dispatch table. -/
theorem instr_cases (i : Nat) :
    (48 ≤ i ∧ i ≤ 57) ∨ i = 43 ∨ i = 45 ∨ i = 118 ∨ i = 94 ∨ i = 60 ∨
    i = 62 ∨ i = 34 ∨ i = 33 ∨ i = 63 ∨ i = 61 ∨ i = 92 ∨ i = 47 ∨
    (i = 32 ∨ i = 0) ∨ i = 95 ∨
    (¬(48 ≤ i ∧ i ≤ 57) ∧ i ≠ 43 ∧ i ≠ 45 ∧ i ≠ 118 ∧ i ≠ 94 ∧ i ≠ 60 ∧
      i ≠ 62 ∧ i ≠ 34 ∧ i ≠ 33 ∧ i ≠ 63 ∧ i ≠ 61 ∧ i ≠ 92 ∧ i ≠ 47 ∧
      ¬(i = 32 ∨ i = 0) ∧ i ≠ 95) := by
  omega

theorem dispatch_core_true (s : SandWormInterpreter) (i : Nat)
    (X : SandWormInterpreter) (h : dispatchCore s i = (X, true)) :
    dispatch s i = X := by
  unfold dispatch
  rw [h]

theorem dispatch_core_false (s : SandWormInterpreter) (i : Nat)
    (X : SandWormInterpreter) (h : dispatchCore s i = (X, false)) :
    dispatch s i = { X with worm_out := i :: X.worm_out } := by
  unfold dispatch
  rw [h]

/-- The frame of one dispatch: the head is unchanged, the body can only
lose segments, the pending-values stack receives at most one value, and
the dimensions and execution state are untouched. -/
theorem dispatch_frame (s : SandWormInterpreter) (i : Nat) :
    (dispatch s i).worm_head = s.worm_head ∧
    (∀ q, q ∈ (dispatch s i).worm → q ∈ s.worm) ∧
    ((dispatch s i).worm_in = s.worm_in ∨
      ∃ v, (dispatch s i).worm_in = s.worm_in ++ [v]) ∧
    (dispatch s i).state = s.state ∧
    (dispatch s i).width = s.width ∧ (dispatch s i).height = s.height := by
  rcases instr_cases i with
    h | rfl | rfl | rfl | rfl | rfl | rfl | rfl | rfl | rfl | rfl | rfl |
    rfl | h | rfl | h
  · rw [dispatch_core_false s i _ (dispatchCore_digit s i h)]
    exact ⟨rfl, fun q hq => hq, Or.inr ⟨i - 48, rfl⟩, rfl, rfl, rfl⟩
  · rw [dispatch_core_true s 43 _ (dispatchCore_plus s)]
    refine ⟨by simp [shrink_worm_head], ?_,
      Or.inr ⟨((shrink s).1 + (shrink { (shrink s).2 with
        worm_out := 43 :: (shrink s).2.worm_out }).1) % 256,
        by simp [shrink_worm_in]⟩,
      by simp [shrink_state], by simp [shrink_width], by simp [shrink_height]⟩
    exact fun q hq => shrink_mem_worm s q
      (shrink_mem_worm { (shrink s).2 with
        worm_out := 43 :: (shrink s).2.worm_out } q hq)
  · rw [dispatch_core_true s 45 _ (dispatchCore_minus s)]
    refine ⟨by simp [shrink_worm_head], ?_,
      Or.inr ⟨((shrink s).1 + (256 - (shrink { (shrink s).2 with
        worm_out := 45 :: (shrink s).2.worm_out }).1 % 256)) % 256,
        by simp [shrink_worm_in]⟩,
      by simp [shrink_state], by simp [shrink_width], by simp [shrink_height]⟩
    exact fun q hq => shrink_mem_worm s q
      (shrink_mem_worm { (shrink s).2 with
        worm_out := 45 :: (shrink s).2.worm_out } q hq)
  · rw [dispatch_core_false s 118 _ (dispatchCore_down s)]
    exact ⟨rfl, fun q hq => hq, Or.inl rfl, rfl, rfl, rfl⟩
  · rw [dispatch_core_false s 94 _ (dispatchCore_up s)]
    exact ⟨rfl, fun q hq => hq, Or.inl rfl, rfl, rfl, rfl⟩
  · rw [dispatch_core_false s 60 _ (dispatchCore_left s)]
    exact ⟨rfl, fun q hq => hq, Or.inl rfl, rfl, rfl, rfl⟩
  · rw [dispatch_core_false s 62 _ (dispatchCore_right s)]
    exact ⟨rfl, fun q hq => hq, Or.inl rfl, rfl, rfl, rfl⟩
  · rw [dispatch_core_false s 34 _ (dispatchCore_write s)]
    exact ⟨by simp [shrink_worm_head], fun q hq => shrink_mem_worm _ _ hq,
      Or.inl (by simp [shrink_worm_in]), by simp [shrink_state],
      by simp [shrink_width], by simp [shrink_height]⟩
  · rw [dispatch_core_false s 33 _ (dispatchCore_writeByte s)]
    exact ⟨by simp [shrink_worm_head], fun q hq => shrink_mem_worm _ _ hq,
      Or.inl (by simp [shrink_worm_in]), by simp [shrink_state],
      by simp [shrink_width], by simp [shrink_height]⟩
  · rw [dispatch_core_false s 63 _ (dispatchCore_read s)]
    exact ⟨rfl, fun q hq => hq, Or.inr ⟨_, rfl⟩, rfl, rfl, rfl⟩
  · rw [dispatch_core_false s 61 _ (dispatchCore_dup s)]
    exact ⟨rfl, fun q hq => hq, Or.inr ⟨_, rfl⟩, rfl, rfl, rfl⟩
  · rw [dispatch_core_false s 92 _ (dispatchCore_backslash s)]
    split_ifs
    · exact ⟨by simp [shrink_worm_head], fun q hq => shrink_mem_worm _ _ hq,
        Or.inl (by simp [shrink_worm_in]), by simp [shrink_state],
        by simp [shrink_width], by simp [shrink_height]⟩
    · exact ⟨by simp [shrink_worm_head], fun q hq => shrink_mem_worm _ _ hq,
        Or.inl (by simp [shrink_worm_in]), by simp [shrink_state],
        by simp [shrink_width], by simp [shrink_height]⟩
  · rw [dispatch_core_false s 47 _ (dispatchCore_slash s)]
    split_ifs
    · exact ⟨by simp [shrink_worm_head], fun q hq => shrink_mem_worm _ _ hq,
        Or.inl (by simp [shrink_worm_in]), by simp [shrink_state],
        by simp [shrink_width], by simp [shrink_height]⟩
    · exact ⟨by simp [shrink_worm_head], fun q hq => shrink_mem_worm _ _ hq,
        Or.inl (by simp [shrink_worm_in]), by simp [shrink_state],
        by simp [shrink_width], by simp [shrink_height]⟩
  · rw [dispatch_core_true s i _ (dispatchCore_space s i h)]
    exact ⟨rfl, fun q hq => hq, Or.inl rfl, rfl, rfl, rfl⟩
  · rw [dispatch_core_false s 95 _ (dispatchCore_underscore s)]
    exact ⟨rfl, fun q hq => hq, Or.inr ⟨_, rfl⟩, rfl, rfl, rfl⟩
  · obtain ⟨h1, h2, h3, h4, h5, h6, h7, h8, h9, h10, h11, h12, h13, h14, h15⟩ := h
    rw [dispatch_core_false s i _ (dispatchCore_other s i h1 h2 h3 h4 h5 h6
      h7 h8 h9 h10 h11 h12 h13 h14 h15)]
    exact ⟨rfl, fun q hq => hq, Or.inr ⟨_, rfl⟩, rfl, rfl, rfl⟩

theorem dispatch_worm_head (s : SandWormInterpreter) (i : Nat) :
    (dispatch s i).worm_head = s.worm_head :=
  (dispatch_frame s i).1

theorem dispatch_worm_sub (s : SandWormInterpreter) (i : Nat) (q : Pos)
    (h : q ∈ (dispatch s i).worm) : q ∈ s.worm :=
  (dispatch_frame s i).2.1 q h

/-- Claim C2 (amended).  As stated the claim is false: the worm can run
into its own body (see `c2_counterexample`).  What does hold: a step that
keeps running moves the head to the forward cell, and every post-step
body coordinate is a pre-step body coordinate or the pre-step head, so
`head ∉ body` is preserved by every step whose forward cell is not
currently occupied by the body. -/
theorem c2_head_not_in_body_amended (s : SandWormInterpreter)
    (hr : s.state = .Running)
    (hfb : (front s).1 < s.width ∧ (front s).2 < s.height)
    (_hh : s.worm_head ∉ s.worm) (hfw : front s ∉ s.worm)
    (hwd : s.width < U64) (hht : s.height < U64) :
    (step_once s).worm_head ∉ (step_once s).worm := by
  have hne := front_ne_head s hfb hwd hht
  rw [step_once_running s hr (by push_neg; exact hfb)]
  rw [move_to_worm_head]
  intro hmem
  have h2 := move_to_mem_worm _ _ _ hmem
  rcases h2 with h3 | h3
  · exact hfw (dispatch_worm_sub _ _ _ h3)
  · rw [dispatch_worm_head] at h3
    exact hne h3

/-- Witness for C2 (amended) at a concrete state with a non-empty body. -/
theorem c2_witness :
    (step_once (step_once (wormNew ["@5 "] []))).worm_head ∉
      (step_once (step_once (wormNew ["@5 "] []))).worm :=
  c2_head_not_in_body_amended (step_once (wormNew ["@5 "] []))
    (by decide) (by decide) (by decide) (by decide) (by decide) (by decide)

/-! ## The pending-values stack across a step -/

theorem dispatch_worm_in_cases (s : SandWormInterpreter) (i : Nat) :
    (dispatch s i).worm_in = s.worm_in ∨
      ∃ v, (dispatch s i).worm_in = s.worm_in ++ [v] :=
  (dispatch_frame s i).2.2.1

theorem step_once_worm_in_nil (s : SandWormInterpreter)
    (h : s.worm_in = []) : (step_once s).worm_in = [] := by
  by_cases h1 : s.state = .Running
  · by_cases h2 : (front s).1 ≥ s.width ∨ (front s).2 ≥ s.height
    · rw [step_once_oob s h1 h2]
      exact h
    · rw [step_once_running s h1 h2, move_to_worm_in]
      rcases dispatch_worm_in_cases s (get s (front s)) with h3 | ⟨v, h3⟩ <;>
        rw [h3, h] <;> rfl
  · rw [step_once_not_running s h1]
    exact h

theorem step_worm_in_nil (s : SandWormInterpreter) (n : Nat)
    (h : s.worm_in = []) : (step s n).worm_in = [] := by
  induction n generalizing s with
  | zero => exact h
  | succ m ih =>
      unfold step
      split_ifs with h1
      · exact h
      · exact ih _ (step_once_worm_in_nil s h)

/-- Claim C10: the pending-values stack (`worm_in`) is empty at every
step boundary: dispatch pushes at most one value and the movement phase
pops exactly when one is present, so starting from an empty stack `worm_in`
is empty again after each single step, and after any bounded run. -/
theorem c10_pending_values_empty (s : SandWormInterpreter)
    (h : s.worm_in = []) :
    (step_once s).worm_in = [] ∧ ∀ n, (step s n).worm_in = [] :=
  ⟨step_once_worm_in_nil s h, fun n => step_worm_in_nil s n h⟩

/-- Witness for C10 at a concrete program. -/
theorem c10_witness :
    (step_once (wormNew ["05\""] [])).worm_in = [] ∧
    ∀ n, (step (wormNew ["05\""] []) n).worm_in = [] :=
  c10_pending_values_empty _ rfl

/-! ## FIFO discipline of the pending-bytes queue

The queue invariant: if `E` is the full enqueue history (oldest first)
and `D` the full dequeue history, then `E = D ++ Q.reverse` — everything
ever enqueued is what has been dequeued followed by the current queue
contents, oldest first.  Every operation the interpreter performs on
`worm_out` (enqueue at the front, dequeue from the back) preserves it,
hence `D` is always a prefix of `E`: bytes leave in arrival order. -/

theorem queue_enq (E D Q : List Nat) (x : Nat) (h : E = D ++ Q.reverse) :
    E ++ [x] = D ++ (x :: Q).reverse := by
  simp [h]

theorem queue_deq (E D : List Nat) (Q : List Nat)
    (h : E = D ++ Q.reverse) :
    E = (D ++ Q.getLast?.toList) ++ Q.dropLast.reverse := by
  rcases List.eq_nil_or_concat Q with rfl | ⟨L, b, rfl⟩
  · simpa using h
  · simp only [List.concat_eq_append, List.getLast?_concat,
      List.dropLast_concat, Option.toList_some]
    rw [h]
    simp

theorem shrinkT_inv (s : SandWormInterpreter) (E D : List Nat)
    (h : E = D ++ s.worm_out.reverse) :
    E = (D ++ (shrinkT s).2.2) ++ (shrink s).2.worm_out.reverse := by
  unfold shrinkT
  cases h2 : s.worm.getLast? with
  | none =>
      have hnil : s.worm = [] := List.getLast?_eq_none_iff.mp h2
      rw [shrink_nil s hnil]
      simpa using h
  | some neck =>
      have hne : s.worm ≠ [] := by
        intro hc
        rw [hc] at h2
        simp at h2
      rw [shrink_worm_out s hne]
      simpa using queue_deq E D s.worm_out h

theorem move_toT_inv (s : SandWormInterpreter) (f : Pos) (E D : List Nat)
    (h : E = D ++ s.worm_out.reverse) :
    E = (D ++ (move_toT s f).2) ++ (move_to s f).worm_out.reverse := by
  unfold move_toT
  cases h2 : s.worm_in.getLast? with
  | some v =>
      rw [move_to_worm_out_grow s f (by
        intro hc
        rw [hc] at h2
        simp at h2)]
      simpa using h
  | none =>
      rw [move_to_worm_out_slide s f (List.getLast?_eq_none_iff.mp h2)]
      simpa using queue_deq E D s.worm_out h

/-! ### Branch equations for `dispatchLogs` -/

theorem dispatchLogs_digit (s : SandWormInterpreter) (i : Nat)
    (h : 48 ≤ i ∧ i ≤ 57) : dispatchLogs s i = ([i], []) := by
  unfold dispatchLogs
  rw [if_pos h]

theorem dispatchLogs_plus (s : SandWormInterpreter) :
    dispatchLogs s 43 = ([43], (shrinkT s).2.2 ++
      (shrinkT { (shrink s).2 with
        worm_out := 43 :: (shrink s).2.worm_out }).2.2) := rfl

theorem dispatchLogs_minus (s : SandWormInterpreter) :
    dispatchLogs s 45 = ([45], (shrinkT s).2.2 ++
      (shrinkT { (shrink s).2 with
        worm_out := 45 :: (shrink s).2.worm_out }).2.2) := rfl

theorem dispatchLogs_pushOnly (s : SandWormInterpreter) (i : Nat)
    (h : i = 118 ∨ i = 94 ∨ i = 60 ∨ i = 62 ∨ i = 63 ∨ i = 61 ∨ i = 95) :
    dispatchLogs s i = ([i], []) := by
  rcases h with rfl | rfl | rfl | rfl | rfl | rfl | rfl <;> rfl

theorem dispatchLogs_shrinkOne (s : SandWormInterpreter) (i : Nat)
    (h : i = 34 ∨ i = 33 ∨ i = 92 ∨ i = 47) :
    dispatchLogs s i = ([i], (shrinkT s).2.2) := by
  rcases h with rfl | rfl | rfl | rfl <;> rfl

theorem dispatchLogs_space (s : SandWormInterpreter) (i : Nat)
    (h : i = 32 ∨ i = 0) : dispatchLogs s i = ([], []) := by
  rcases h with rfl | rfl <;> rfl

theorem dispatchLogs_other (s : SandWormInterpreter) (i : Nat)
    (h1 : ¬(48 ≤ i ∧ i ≤ 57)) (h2 : i ≠ 43) (h3 : i ≠ 45) (h4 : i ≠ 118)
    (h5 : i ≠ 94) (h6 : i ≠ 60) (h7 : i ≠ 62) (h8 : i ≠ 34) (h9 : i ≠ 33)
    (h10 : i ≠ 63) (h11 : i ≠ 61) (h12 : i ≠ 92) (h13 : i ≠ 47)
    (h14 : ¬(i = 32 ∨ i = 0)) (h15 : i ≠ 95) :
    dispatchLogs s i = ([i], []) := by
  unfold dispatchLogs
  rw [if_neg h1, if_neg h2, if_neg h3, if_neg h4, if_neg h5, if_neg h6,
    if_neg h7, if_neg h8, if_neg h9, if_neg h10, if_neg h11, if_neg h12,
    if_neg h13, if_neg h14, if_neg h15]

/-- One dispatch preserves the queue invariant, with its logs appended. -/
theorem dispatch_queue_inv (s : SandWormInterpreter) (i : Nat)
    (E D : List Nat) (h : E = D ++ s.worm_out.reverse) :
    E ++ (dispatchLogs s i).1 =
      (D ++ (dispatchLogs s i).2) ++ (dispatch s i).worm_out.reverse := by
  rcases instr_cases i with
    hc | rfl | rfl | rfl | rfl | rfl | rfl | rfl | rfl | rfl | rfl | rfl |
    rfl | hc | rfl | hc
  · rw [dispatchLogs_digit s i hc,
      dispatch_core_false s i _ (dispatchCore_digit s i hc)]
    simpa using queue_enq E D s.worm_out i h
  · rw [dispatchLogs_plus s, dispatch_core_true s 43 _ (dispatchCore_plus s)]
    have h1 := shrinkT_inv s E D h
    have h2 := queue_enq E (D ++ (shrinkT s).2.2) (shrink s).2.worm_out 43 h1
    have h3 := shrinkT_inv { (shrink s).2 with
      worm_out := 43 :: (shrink s).2.worm_out } (E ++ [43])
      (D ++ (shrinkT s).2.2) h2
    simpa [List.append_assoc] using h3
  · rw [dispatchLogs_minus s, dispatch_core_true s 45 _ (dispatchCore_minus s)]
    have h1 := shrinkT_inv s E D h
    have h2 := queue_enq E (D ++ (shrinkT s).2.2) (shrink s).2.worm_out 45 h1
    have h3 := shrinkT_inv { (shrink s).2 with
      worm_out := 45 :: (shrink s).2.worm_out } (E ++ [45])
      (D ++ (shrinkT s).2.2) h2
    simpa [List.append_assoc] using h3
  · rw [dispatchLogs_pushOnly s 118 (by omega),
      dispatch_core_false s 118 _ (dispatchCore_down s)]
    simpa using queue_enq E D s.worm_out 118 h
  · rw [dispatchLogs_pushOnly s 94 (by omega),
      dispatch_core_false s 94 _ (dispatchCore_up s)]
    simpa using queue_enq E D s.worm_out 94 h
  · rw [dispatchLogs_pushOnly s 60 (by omega),
      dispatch_core_false s 60 _ (dispatchCore_left s)]
    simpa using queue_enq E D s.worm_out 60 h
  · rw [dispatchLogs_pushOnly s 62 (by omega),
      dispatch_core_false s 62 _ (dispatchCore_right s)]
    simpa using queue_enq E D s.worm_out 62 h
  · rw [dispatchLogs_shrinkOne s 34 (by omega),
      dispatch_core_false s 34 _ (dispatchCore_write s)]
    have h1 := shrinkT_inv s E D h
    simpa using queue_enq E (D ++ (shrinkT s).2.2) (shrink s).2.worm_out 34 h1
  · rw [dispatchLogs_shrinkOne s 33 (by omega),
      dispatch_core_false s 33 _ (dispatchCore_writeByte s)]
    have h1 := shrinkT_inv s E D h
    simpa using queue_enq E (D ++ (shrinkT s).2.2) (shrink s).2.worm_out 33 h1
  · rw [dispatchLogs_pushOnly s 63 (by omega),
      dispatch_core_false s 63 _ (dispatchCore_read s)]
    simpa using queue_enq E D s.worm_out 63 h
  · rw [dispatchLogs_pushOnly s 61 (by omega),
      dispatch_core_false s 61 _ (dispatchCore_dup s)]
    simpa using queue_enq E D s.worm_out 61 h
  · rw [dispatchLogs_shrinkOne s 92 (by omega),
      dispatch_core_false s 92 _ (dispatchCore_backslash s)]
    have h1 := shrinkT_inv s E D h
    have h2 := queue_enq E (D ++ (shrinkT s).2.2) (shrink s).2.worm_out 92 h1
    split_ifs <;> simpa using h2
  · rw [dispatchLogs_shrinkOne s 47 (by omega),
      dispatch_core_false s 47 _ (dispatchCore_slash s)]
    have h1 := shrinkT_inv s E D h
    have h2 := queue_enq E (D ++ (shrinkT s).2.2) (shrink s).2.worm_out 47 h1
    split_ifs <;> simpa using h2
  · rw [dispatchLogs_space s i hc, dispatch_core_true s i _
      (dispatchCore_space s i hc)]
    simpa using h
  · rw [dispatchLogs_pushOnly s 95 (by omega),
      dispatch_core_false s 95 _ (dispatchCore_underscore s)]
    simpa using queue_enq E D s.worm_out 95 h
  · obtain ⟨h1, h2, h3, h4, h5, h6, h7, h8, h9, h10, h11, h12, h13, h14,
      h15⟩ := hc
    rw [dispatchLogs_other s i h1 h2 h3 h4 h5 h6 h7 h8 h9 h10 h11 h12 h13
      h14 h15, dispatch_core_false s i _ (dispatchCore_other s i h1 h2 h3 h4
      h5 h6 h7 h8 h9 h10 h11 h12 h13 h14 h15)]
    simpa using queue_enq E D s.worm_out i h

/-! ### Step- and run-level queue invariants -/

theorem step_onceT_not_running (s : SandWormInterpreter)
    (h : s.state ≠ .Running) : step_onceT s = (s, [], []) := by
  unfold step_onceT
  rw [if_pos h]

theorem step_onceT_oob (s : SandWormInterpreter) (hr : s.state = .Running)
    (h : (front s).1 ≥ s.width ∨ (front s).2 ≥ s.height) :
    step_onceT s = ({ s with state := .EndOfProgram }, [], []) := by
  unfold step_onceT
  rw [hr]
  simp only [ne_eq, not_true_eq_false, if_false]
  rw [if_pos h]

theorem step_onceT_running (s : SandWormInterpreter)
    (hr : s.state = .Running)
    (h : ¬((front s).1 ≥ s.width ∨ (front s).2 ≥ s.height)) :
    step_onceT s = (move_to (dispatch s (get s (front s))) (front s),
      (dispatchLogs s (get s (front s))).1,
      (dispatchLogs s (get s (front s))).2 ++
        (move_toT (dispatch s (get s (front s))) (front s)).2) := by
  unfold step_onceT
  rw [hr]
  simp only [ne_eq, not_true_eq_false, if_false]
  rw [if_neg h]

theorem step_onceT_fst (s : SandWormInterpreter) :
    (step_onceT s).1 = step_once s := by
  by_cases h1 : s.state = .Running
  · by_cases h2 : (front s).1 ≥ s.width ∨ (front s).2 ≥ s.height
    · rw [step_onceT_oob s h1 h2, step_once_oob s h1 h2]
    · rw [step_onceT_running s h1 h2, step_once_running s h1 h2]
  · rw [step_onceT_not_running s h1, step_once_not_running s h1]

theorem step_once_queue_inv (s : SandWormInterpreter) (E D : List Nat)
    (h : E = D ++ s.worm_out.reverse) :
    E ++ (step_onceT s).2.1 =
      (D ++ (step_onceT s).2.2) ++ (step_onceT s).1.worm_out.reverse := by
  by_cases h1 : s.state = .Running
  · by_cases h2 : (front s).1 ≥ s.width ∨ (front s).2 ≥ s.height
    · rw [step_onceT_oob s h1 h2]
      simpa using h
    · rw [step_onceT_running s h1 h2]
      have hd := dispatch_queue_inv s (get s (front s)) E D h
      have hm := move_toT_inv (dispatch s (get s (front s))) (front s)
        (E ++ (dispatchLogs s (get s (front s))).1)
        (D ++ (dispatchLogs s (get s (front s))).2) hd
      simpa [List.append_assoc] using hm
  · rw [step_onceT_not_running s h1]
    simpa using h

theorem runT_fst (s : SandWormInterpreter) (n : Nat) :
    (runT s n).1 = step s n := by
  induction n generalizing s with
  | zero => rfl
  | succ m ih =>
      unfold runT step
      by_cases h1 : s.state ≠ .Running
      · rw [if_pos h1, if_pos h1]
      · rw [if_neg h1, if_neg h1]
        simp only [step_onceT_fst]
        exact ih (step_once s)

theorem runT_inv (n : Nat) (s : SandWormInterpreter) (E D : List Nat)
    (h : E = D ++ s.worm_out.reverse) :
    E ++ (runT s n).2.1 =
      (D ++ (runT s n).2.2) ++ (runT s n).1.worm_out.reverse := by
  induction n generalizing s E D with
  | zero =>
      simp only [runT]
      simpa using h
  | succ m ih =>
      unfold runT
      by_cases h1 : s.state ≠ .Running
      · rw [if_pos h1]
        simpa using h
      · rw [if_neg h1]
        simp only
        have hstep := step_once_queue_inv s E D h
        rw [step_onceT_fst] at hstep
        have htail := ih (step_once s)
          (E ++ (step_onceT s).2.1) (D ++ (step_onceT s).2.2) hstep
        rw [step_onceT_fst]
        simpa [List.append_assoc] using htail

/-- Claim C6: the pending-bytes queue (`worm_out`) is strictly FIFO.
`runT` runs `n` steps and records the cumulative enqueue log `E` and
dequeue log `D` of `worm_out` (every enqueue is `insert(0, b)`, every
dequeue is `pop()` from the back).  Counting the initial queue contents
(oldest first) as already enqueued, after any run the enqueue history is
exactly the dequeue history followed by the remaining queue contents,
oldest first — so bytes are dequeued in precisely the order they were
enqueued (the dequeue history is a prefix of the enqueue history), and
the instrumented run agrees with `step`. -/
theorem c6_pending_bytes_fifo (s : SandWormInterpreter) (n : Nat) :
    (s.worm_out.reverse ++ (runT s n).2.1 =
      (runT s n).2.2 ++ (runT s n).1.worm_out.reverse) ∧
    (∃ rest, s.worm_out.reverse ++ (runT s n).2.1 =
      (runT s n).2.2 ++ rest) ∧
    (runT s n).1 = step s n := by
  have h := runT_inv n s s.worm_out.reverse [] (by simp)
  exact ⟨by simpa using h, ⟨_, by simpa using h⟩, runT_fst s n⟩

/-! ## Growth/slide invariant of the movement phase -/

/-- Claim C1 (amended).  As stated the claim is false — dispatch may
shrink the body, so a whole step that stays `Running` can shorten the
worm (see `c1_counterexample`).  The invariant holds of the movement
phase `move_to`: the body length changes by exactly +1 (grow, pending
value present) or 0 (slide), and the grid cell at the pre-movement head
position receives the popped pending value (grow), the pre-movement
neck's value shifted down the chain (slide, nonempty body), or a
pending-bytes/space byte (slide, empty body). -/
theorem c1_growth_slide_amended (s : SandWormInterpreter) (f : Pos)
    (hh : s.worm_head ∉ s.worm) (hf : f ≠ s.worm_head)
    (hb : cellInB s.program s.worm_head) :
    (s.worm_in ≠ [] →
      (move_to s f).worm.length = s.worm.length + 1 ∧
      getCell (move_to s f).program s.worm_head =
        s.worm_in.getLast?.getD 0) ∧
    (s.worm_in = [] →
      (move_to s f).worm.length = s.worm.length ∧
      (∀ neck, s.worm.getLast? = some neck →
        getCell (move_to s f).program s.worm_head =
          getCell s.program neck) ∧
      (s.worm = [] →
        getCell (move_to s f).program s.worm_head =
          s.worm_out.getLast?.getD 32)) := by
  constructor
  · intro h
    obtain ⟨v, hv⟩ := Option.isSome_iff_exists.mp (List.getLast?_isSome.mpr h)
    obtain ⟨rest, hr⟩ := exists_concat_of_getLast? hv
    refine ⟨?_, ?_⟩
    · rw [move_to_worm_grow s f h]
      simp
    · rw [move_to_grow_get_head s f rest v hr, hv]
      · rfl
      · exact hf
      · exact hb
  · intro h
    refine ⟨?_, ?_, ?_⟩
    · cases hw : s.worm with
      | nil => rw [move_to_worm_slide_nil s f h hw]
      | cons t rest =>
          rw [move_to_worm_slide_cons s f t rest h hw]
          simp
    · intro neck hneck
      exact move_to_slide_get_head s f neck h hneck hh hf hb
    · intro hw
      exact move_to_slide_empty_head s f h hw hf hb

/-- Witness for C1 (amended): a slide of a one-segment worm carrying the
value 5. -/
theorem c1_witness :
    (move_to (step_once (wormNew ["@5 "] [])) (2, 0)).worm.length =
      (step_once (wormNew ["@5 "] [])).worm.length ∧
    getCell (move_to (step_once (wormNew ["@5 "] [])) (2, 0)).program
        (step_once (wormNew ["@5 "] [])).worm_head =
      getCell (step_once (wormNew ["@5 "] [])).program (0, 0) := by
  have h := c1_growth_slide_amended (step_once (wormNew ["@5 "] [])) (2, 0)
    (by decide) (by decide) (by decide)
  exact ⟨(h.2 (by decide)).1, (h.2 (by decide)).2.1 (0, 0) (by decide)⟩

/-! ## The movement phase as specified (grow vs. slide) -/

/-- Claim C5: after dispatch exactly one movement occurs, selected by
whether pending-values is non-empty.  Grow: one value is popped and
written into the cell at the current head, and that coordinate becomes
the new neck.  Slide: the body values shift one position toward the head
(the cell of `worm[i+1]` receives the old value of `worm[i]`, the old
head cell receives the neck's value), the vacated tail-most cell is
refilled with one byte popped from pending-bytes (or a space byte), and
the length is unchanged.  In both cases the forward cell is overwritten
with the head sentinel byte 64 and becomes the new head coordinate.  The
side conditions express worm integrity (distinct body cells, head and
forward cell off the body, all cells in bounds). -/
theorem c5_movement (s : SandWormInterpreter) (f : Pos)
    (hnd : s.worm.Nodup) (hh : s.worm_head ∉ s.worm) (hfw : f ∉ s.worm)
    (hfh : f ≠ s.worm_head)
    (hbs : ∀ q ∈ s.worm_head :: s.worm, cellInB s.program q)
    (hbf : cellInB s.program f) :
    (move_to s f).worm_head = f ∧
    getCell (move_to s f).program f = 64 ∧
    (s.worm_in ≠ [] →
      (move_to s f).worm = s.worm ++ [s.worm_head] ∧
      (move_to s f).worm_in = s.worm_in.dropLast ∧
      (move_to s f).worm_out = s.worm_out ∧
      getCell (move_to s f).program s.worm_head =
        s.worm_in.getLast?.getD 0) ∧
    (s.worm_in = [] →
      (move_to s f).worm_out = s.worm_out.dropLast ∧
      (s.worm = [] → (move_to s f).worm = [] ∧
        getCell (move_to s f).program s.worm_head =
          s.worm_out.getLast?.getD 32) ∧
      (∀ t rest, s.worm = t :: rest →
        (move_to s f).worm = rest ++ [s.worm_head] ∧
        getCell (move_to s f).program t = s.worm_out.getLast?.getD 32 ∧
        (∀ neck, s.worm.getLast? = some neck →
          getCell (move_to s f).program s.worm_head =
            getCell s.program neck) ∧
        (∀ i p q, s.worm[i]? = some p → s.worm[i + 1]? = some q →
          getCell (move_to s f).program q = getCell s.program p))) := by
  refine ⟨move_to_worm_head s f, move_to_get_front s f hbf, ?_, ?_⟩
  · intro h
    obtain ⟨v, hv⟩ := Option.isSome_iff_exists.mp (List.getLast?_isSome.mpr h)
    obtain ⟨rest, hr⟩ := exists_concat_of_getLast? hv
    refine ⟨move_to_worm_grow s f h, move_to_worm_in s f,
      move_to_worm_out_grow s f h, ?_⟩
    rw [move_to_grow_get_head s f rest v hr hfh (hbs _ (by simp)), hv]
    rfl
  · intro h
    refine ⟨move_to_worm_out_slide s f h, ?_, ?_⟩
    · intro hw
      exact ⟨move_to_worm_slide_nil s f h hw,
        move_to_slide_empty_head s f h hw hfh (hbs _ (by simp))⟩
    · intro t rest hw
      refine ⟨move_to_worm_slide_cons s f t rest h hw, ?_, ?_, ?_⟩
      · refine move_to_slide_get_tail s f t rest h hw ?_ (hbs t (by simp [hw]))
        intro he
        apply hfw
        rw [he, hw]
        exact List.mem_cons_self t rest
      · intro neck hneck
        exact move_to_slide_get_head s f neck h hneck hh hfh (hbs _ (by simp))
      · intro i p q hp hq
        exact move_to_slide_shift s f h hnd hh hfw hbs i p q hp hq

/-- Witness for C5: a slide of a two-segment worm carrying 2 and 5. -/
theorem c5_witness :
    getCell (move_to (step (wormNew ["@25 "] []) 2) (3, 0)).program
      (3, 0) = 64 ∧
    getCell (move_to (step (wormNew ["@25 "] []) 2) (3, 0)).program
        (1, 0) =
      getCell (step (wormNew ["@25 "] []) 2).program (0, 0) := by
  have h := c5_movement (step (wormNew ["@25 "] []) 2) (3, 0)
    (by decide) (by decide) (by decide) (by decide) (by decide) (by decide)
  refine ⟨h.2.1, ?_⟩
  exact ((h.2.2.2 (by decide)).2.2 (0, 0) [(1, 0)] (by decide)).2.2.2
    0 (0, 0) (1, 0) (by decide) (by decide)

/-! ## The binary operators -/

/-- Data flow of the two `shrink` calls of a binary operator, with the
operator byte enqueued in between: the first shrink returns the neck's
value, the second returns the old second segment's value, the head is
unmoved, and the queue ends as `(op :: worm_out.dropLast).dropLast` —
the two pops and the one enqueue in their actual order. -/
theorem binary_shrink_facts (s : SandWormInterpreter) (op : Nat)
    (l2 : List Pos) (p2 p1 : Pos) (hw : s.worm = l2 ++ [p2, p1])
    (hnd : s.worm.Nodup) (hb1 : cellInB s.program p1) :
    (shrink s).1 = getCell s.program p1 ∧
    (shrink { (shrink s).2 with
      worm_out := op :: (shrink s).2.worm_out }).1 = getCell s.program p2 ∧
    (shrink { (shrink s).2 with
      worm_out := op :: (shrink s).2.worm_out }).2.worm_out =
      (op :: s.worm_out.dropLast).dropLast ∧
    (shrink { (shrink s).2 with
      worm_out := op :: (shrink s).2.worm_out }).2.worm_head =
      s.worm_head ∧
    (∀ q, cellInB s.program q ↔ cellInB (shrink { (shrink s).2 with
      worm_out := op :: (shrink s).2.worm_out }).2.program q) := by
  have hsplit : s.worm = (l2 ++ [p2]) ++ [p1] := by simp [hw]
  have hwne : s.worm ≠ [] := by rw [hw]; simp
  have hworm1 : (shrink s).2.worm = (l2 ++ [p2]).drop 1 ++ [p1] :=
    shrink_worm s (l2 ++ [p2]) p1 (by simp) hsplit
  have hget1 : getCell (shrink s).2.program p1 = getCell s.program p2 :=
    shrink_get_neck s l2 p2 p1 hw hnd hb1
  have hworm2 : ({ (shrink s).2 with
      worm_out := op :: (shrink s).2.worm_out } :
        SandWormInterpreter).worm = (l2 ++ [p2]).drop 1 ++ [p1] := hworm1
  have hwne2 : ({ (shrink s).2 with
      worm_out := op :: (shrink s).2.worm_out } :
        SandWormInterpreter).worm ≠ [] := by
    rw [hworm2]
    simp
  refine ⟨shrink_ret s (l2 ++ [p2]) p1 hsplit, ?_, ?_, ?_, ?_⟩
  · rw [shrink_ret _ ((l2 ++ [p2]).drop 1) p1 hworm2]
    exact hget1
  · rw [shrink_worm_out _ hwne2]
    have e4 : ({ (shrink s).2 with
        worm_out := op :: (shrink s).2.worm_out } :
          SandWormInterpreter).worm_out = op :: (shrink s).2.worm_out := rfl
    rw [e4, shrink_worm_out s hwne]
  · rw [shrink_worm_head]
    exact shrink_worm_head s
  · intro q
    exact (shrink_cellInB s q).symm.trans
      (shrink_cellInB { (shrink s).2 with
        worm_out := op :: (shrink s).2.worm_out } q).symm

/-- Claim C3: with the neck holding `a` and the next segment outward
holding `b`, executing `+` writes `(a + b) % 256` at the pre-step head
position and `-` writes the wrapping difference `(a + 256 - b) % 256`;
in both cases the operator's own byte is enqueued between the two shrink
calls — visible in the final queue `(op :: worm_out.dropLast).dropLast`:
first pop, then enqueue `op` at the front, then second pop (had the byte
been enqueued after dispatch, an initially empty queue would end as
`[op]`, not `[]`). -/
theorem c3_binary_operators (s : SandWormInterpreter) (l2 : List Pos)
    (p2 p1 : Pos) (a b : Nat) (hr : s.state = .Running)
    (hfb : (front s).1 < s.width ∧ (front s).2 < s.height)
    (hw : s.worm = l2 ++ [p2, p1]) (hnd : s.worm.Nodup)
    (hbs : ∀ q ∈ s.worm_head :: s.worm, cellInB s.program q)
    (ha : getCell s.program p1 = a) (hb : getCell s.program p2 = b)
    (hwd : s.width < U64) (hht : s.height < U64) :
    (get s (front s) = 43 →
      getCell (step_once s).program s.worm_head = (a + b) % 256 ∧
      (step_once s).worm_out = (43 :: s.worm_out.dropLast).dropLast) ∧
    (get s (front s) = 45 → b < 256 →
      getCell (step_once s).program s.worm_head = (a + 256 - b) % 256 ∧
      (step_once s).worm_out = (45 :: s.worm_out.dropLast).dropLast) := by
  have hfb2 : ¬((front s).1 ≥ s.width ∨ (front s).2 ≥ s.height) := by
    push_neg
    exact hfb
  have hfh : front s ≠ s.worm_head := front_ne_head s hfb hwd hht
  constructor
  · intro hi
    obtain ⟨r1, r2, rout, rhead, rin⟩ := binary_shrink_facts s 43 l2 p2 p1
      hw hnd (hbs p1 (by simp [hw]))
    have hdw : (dispatch s 43).worm_in =
        (shrink { (shrink s).2 with
          worm_out := 43 :: (shrink s).2.worm_out }).2.worm_in ++
        [((shrink s).1 + (shrink { (shrink s).2 with
          worm_out := 43 :: (shrink s).2.worm_out }).1) % 256] := by
      rw [dispatch_core_true s 43 _ (dispatchCore_plus s)]
    have hdh : (dispatch s 43).worm_head = s.worm_head :=
      dispatch_worm_head s 43
    have hfh2 : front s ≠ (dispatch s 43).worm_head := by
      rw [hdh]
      exact hfh
    have hbb : cellInB (dispatch s 43).program (dispatch s 43).worm_head := by
      rw [hdh, dispatch_core_true s 43 _ (dispatchCore_plus s)]
      exact (rin s.worm_head).mp (hbs _ (by simp))
    have hmain := move_to_grow_get_head (dispatch s 43) (front s) _ _ hdw
      hfh2 hbb
    rw [hdh, r1, r2, ha, hb] at hmain
    have hout : (move_to (dispatch s 43) (front s)).worm_out =
        (43 :: s.worm_out.dropLast).dropLast := by
      rw [move_to_worm_out_grow _ _ (by rw [hdw]; simp),
        dispatch_core_true s 43 _ (dispatchCore_plus s)]
      exact rout
    rw [step_once_running s hr hfb2, hi]
    exact ⟨hmain, hout⟩
  · intro hi hb256
    obtain ⟨r1, r2, rout, rhead, rin⟩ := binary_shrink_facts s 45 l2 p2 p1
      hw hnd (hbs p1 (by simp [hw]))
    have hdw : (dispatch s 45).worm_in =
        (shrink { (shrink s).2 with
          worm_out := 45 :: (shrink s).2.worm_out }).2.worm_in ++
        [((shrink s).1 + (256 - (shrink { (shrink s).2 with
          worm_out := 45 :: (shrink s).2.worm_out }).1 % 256)) % 256] := by
      rw [dispatch_core_true s 45 _ (dispatchCore_minus s)]
    have hdh : (dispatch s 45).worm_head = s.worm_head :=
      dispatch_worm_head s 45
    have hfh2 : front s ≠ (dispatch s 45).worm_head := by
      rw [hdh]
      exact hfh
    have hbb : cellInB (dispatch s 45).program (dispatch s 45).worm_head := by
      rw [hdh, dispatch_core_true s 45 _ (dispatchCore_minus s)]
      exact (rin s.worm_head).mp (hbs _ (by simp))
    have hmain := move_to_grow_get_head (dispatch s 45) (front s) _ _ hdw
      hfh2 hbb
    rw [hdh, r1, r2, ha, hb] at hmain
    have hval : (a + (256 - b % 256)) % 256 = (a + 256 - b) % 256 := by
      rw [Nat.mod_eq_of_lt hb256]
      congr 1
      omega
    rw [hval] at hmain
    have hout : (move_to (dispatch s 45) (front s)).worm_out =
        (45 :: s.worm_out.dropLast).dropLast := by
      rw [move_to_worm_out_grow _ _ (by rw [hdw]; simp),
        dispatch_core_true s 45 _ (dispatchCore_minus s)]
      exact rout
    rw [step_once_running s hr hfb2, hi]
    exact ⟨hmain, hout⟩

/-- Witness for C3: after two steps of `@57+` the body carries 5 and 7
(neck), and executing `+` writes 12 at the old head position, leaving
`[43]` in the queue. -/
theorem c3_witness :
    getCell (step_once (step (wormNew ["@57+"] []) 2)).program
      (step (wormNew ["@57+"] []) 2).worm_head = 12 ∧
    (step_once (step (wormNew ["@57+"] []) 2)).worm_out = [43] := by
  have h := c3_binary_operators (step (wormNew ["@57+"] []) 2) []
    (0, 0) (1, 0) 7 5 (by decide) (by decide) (by decide) (by decide)
    (by decide) (by decide) (by decide) (by decide) (by decide)
  have h2 := h.1 (by decide)
  exact ⟨h2.1, h2.2⟩

end SandWorm
